import Mathlib

/-!
Verification development for the sandboxed evaluation subsystem and checker
strategies of the Python data-types trainer (`main.py`).

The development shallowly embeds:
  * the Python values the quiz tasks traffic in (`Value`),
  * the fragment of the Python abstract syntax tree that the trainer's
    validator walks and its evaluator executes (`PyAst`),
  * the allow-lists `ALLOWED_NODES`, `ALLOWED_NAMES`, `ALLOWED_CALLS` and the
    validator `_validate_ast` (breadth-first walk, as `ast.walk` does),
  * `safe_eval` (expression mode) and the `exec`-based statement mode used by
    the mutation-effect checkers,
  * the checker strategies `check_eval_equals`, `check_eval_predicate`,
    `check_textio`, the `list_remove_evens` / `bytearray_modify` lambda
    checkers, and the `run_tasks` exception guard.

Modelling notes (the embedding is a faithful but partial model of CPython):
  * Syntax-tree leaves that are always allowed and carry no information
    (`Load`/`Store`/`Del` contexts, operator class nodes) are folded into
    their parent constructors; they can never trigger a validation failure.
  * Container literals `Set`/`Dict`, f-strings and chained comparisons are
    outside the embedded fragment; no claim depends on them.
  * Parsing (Python's `ast.parse`) is external to the repository; checkers
    and evaluators are embedded at the syntax-tree level, and the string
    level entry point takes the parser as an abstract argument.
-/

/-- Python runtime values occurring in the trainer's tasks. -/
inductive Value where
  | vnone : Value
  | vbool : Bool → Value
  | vint : Int → Value
  | vstr : String → Value
  | vlist : List Value → Value
  | vtuple : List Value → Value
  | vbytes : List Nat → Value
  | vbytearray : List Nat → Value
  | vrange : Int → Int → Int → Value
  | vbuiltin : String → Value
  | vslice : Option Value → Option Value → Option Value → Value
  deriving Repr

/-- The element sequence denoted by a Python `range(start, stop, step)`
(`step ≠ 0`; a zero step never constructs, see `applyBuiltin`). -/
def rangeList (start stop step : Int) : List Int :=
  let count : Nat :=
    if step > 0 then ((stop - start + step - 1) / step).toNat
    else ((start - stop + (-step) - 1) / (-step)).toNat
  (List.range count).map (fun i => start + step * i)

mutual
/-- Python `==` on embedded values: `bool` and `int` compare numerically,
`bytes` and `bytearray` compare by content, `range` compares as the sequence
it denotes, containers compare elementwise; mismatched kinds are unequal. -/
def pyEq : Value → Value → Bool
  | .vnone, .vnone => true
  | .vbool a, .vbool b => a == b
  | .vbool a, .vint b => (if a then (1 : Int) else 0) == b
  | .vint a, .vbool b => a == (if b then (1 : Int) else 0)
  | .vint a, .vint b => a == b
  | .vstr a, .vstr b => a == b
  | .vlist a, .vlist b => pyEqList a b
  | .vtuple a, .vtuple b => pyEqList a b
  | .vbytes a, .vbytes b => a == b
  | .vbytes a, .vbytearray b => a == b
  | .vbytearray a, .vbytes b => a == b
  | .vbytearray a, .vbytearray b => a == b
  | .vrange a b c, .vrange d e f => rangeList a b c == rangeList d e f
  | .vbuiltin a, .vbuiltin b => a == b
  | .vslice a b c, .vslice d e f => pyEqOpt a d && pyEqOpt b e && pyEqOpt c f
  | _, _ => false

def pyEqList : List Value → List Value → Bool
  | [], [] => true
  | x :: xs, y :: ys => pyEq x y && pyEqList xs ys
  | _, _ => false

def pyEqOpt : Option Value → Option Value → Bool
  | Option.none, Option.none => true
  | some x, some y => pyEq x y
  | _, _ => false
end

/-- Binary operators (the `ast.BinOp` op field). -/
inductive BinK where
  | add | sub | mult | div | floorDiv | mod | pow
  | matMult | bitAnd | bitOr | bitXor | lshift | rshift
  deriving Repr, DecidableEq

/-- Unary operators (the `ast.UnaryOp` op field). -/
inductive UnK where
  | uadd | usub | notOp | invert
  deriving Repr, DecidableEq

/-- Boolean connectives (the `ast.BoolOp` op field). -/
inductive BoolK where
  | andOp | orOp
  deriving Repr, DecidableEq

/-- Comparison operators (the `ast.Compare` ops field; binary chains only). -/
inductive CmpK where
  | eq | notEq | lt | ltE | gt | gtE | isOp | isNot | inOp | notIn
  deriving Repr, DecidableEq

/-- Literal payloads of `ast.Constant`. -/
inductive Const where
  | cnone
  | cbool : Bool → Const
  | cint : Int → Const
  | cstr : String → Const
  | cbytes : List Nat → Const
  deriving Repr, DecidableEq

/-- The embedded fragment of Python's abstract syntax tree: every node kind
the trainer's answers exercise, plus the disallowed kinds (`Expression`,
`Assign`, `Attribute`) that the validator and the statement mode meet. -/
inductive PyAst where
  | expression : PyAst → PyAst                 -- eval-mode root (`ast.Expression`)
  | module : List PyAst → PyAst                -- exec-mode root (`ast.Module`)
  | exprStmt : PyAst → PyAst                   -- expression statement (`ast.Expr`)
  | assign : PyAst → PyAst → PyAst             -- single-target `ast.Assign`
  | const : Const → PyAst                      -- `ast.Constant`
  | name : String → PyAst                      -- `ast.Name`
  | binop : BinK → PyAst → PyAst → PyAst       -- `ast.BinOp`
  | unaryop : UnK → PyAst → PyAst              -- `ast.UnaryOp`
  | boolop : BoolK → PyAst → PyAst → PyAst     -- `ast.BoolOp` (two values)
  | compare : CmpK → PyAst → PyAst → PyAst     -- `ast.Compare` (one comparator)
  | call : PyAst → List PyAst → PyAst          -- `ast.Call` (positional args)
  | listLit : List PyAst → PyAst               -- `ast.List`
  | tupleLit : List PyAst → PyAst              -- `ast.Tuple`
  | subscript : PyAst → PyAst → PyAst          -- `ast.Subscript`
  | sliceNode : Option PyAst → Option PyAst → Option PyAst → PyAst  -- `ast.Slice`
  | attr : PyAst → String → PyAst         -- `ast.Attribute` (disallowed)
  deriving Repr

/-- The Python class name of a node, as `type(node).__name__` renders it. -/
def kindName : PyAst → String
  | .expression _ => "Expression"
  | .module _ => "Module"
  | .exprStmt _ => "Expr"
  | .assign _ _ => "Assign"
  | .const _ => "Constant"
  | .name _ => "Name"
  | .binop _ _ _ => "BinOp"
  | .unaryop _ _ => "UnaryOp"
  | .boolop _ _ _ => "BoolOp"
  | .compare _ _ _ => "Compare"
  | .call _ _ => "Call"
  | .listLit _ => "List"
  | .tupleLit _ => "Tuple"
  | .subscript _ _ => "Subscript"
  | .sliceNode _ _ _ => "Slice"
  | .attr _ _ => "Attribute"

/-- `ALLOWED_NODES` of `main.py` (lines 45-60), transcribed as the class
names the tuple lists.  `Expression`, the root of every `mode='eval'`
parse, is absent. -/
def ALLOWED_NODES : List String :=
  ["Module", "Expr",
   "Load", "Store", "Del",
   "Name", "Constant",
   "Tuple", "List", "Set", "Dict",
   "UnaryOp", "UAdd", "USub", "Not", "Invert",
   "BinOp", "Add", "Sub", "Mult", "Div", "FloorDiv", "Mod", "Pow",
   "MatMult", "BitAnd", "BitOr", "BitXor", "LShift", "RShift",
   "BoolOp", "And", "Or",
   "Compare", "Eq", "NotEq", "Lt", "LtE", "Gt", "GtE",
   "Is", "IsNot", "In", "NotIn",
   "Call", "keyword",
   "Slice", "ExtSlice", "Index",
   "Subscript",
   "JoinedStr", "FormattedValue"]

/-- Keys of `ALLOWED_BUILTINS` (lines 27-43). -/
def ALLOWED_BUILTIN_NAMES : List String :=
  ["None", "True", "False", "len", "sum", "min", "max", "sorted",
   "range", "set", "dict", "list", "tuple", "bytes", "bytearray"]

/-- `ALLOWED_NAMES` (lines 62-65): builtin keys plus the task variables. -/
def ALLOWED_NAMES : List String :=
  ALLOWED_BUILTIN_NAMES ++
  ["x", "s", "a", "b", "t", "d", "nums", "s1", "s2", "r", "ba", "fs"]

/-- `ALLOWED_CALLS` (lines 67-69). -/
def ALLOWED_CALLS : List String :=
  ["len", "sum", "min", "max", "sorted", "range", "set", "dict",
   "list", "tuple", "bytes", "bytearray"]

/-- The per-node body of the `for node in ast.walk(tree)` loop of
`_validate_ast` (lines 72-84): node-kind allow-list first, then the call
shape check, then the bare-identifier check. -/
def checkNode (t : PyAst) : Except String Unit :=
  if ¬ (kindName t ∈ ALLOWED_NODES) then
    .error ("Недопустимый синтаксический элемент: " ++ kindName t)
  else
    match t with
    | .call f _ =>
      match f with
      | .name fid =>
        if ¬ (fid ∈ ALLOWED_CALLS) then
          .error ("Недопустимый вызов: " ++ fid ++ "()")
        else .ok ()
      | _ => .error "Разрешены только простые вызовы встроенных функций"
    | .name nid =>
      if ¬ (nid ∈ ALLOWED_NAMES) then
        .error ("Недопустимое имя: " ++ nid)
      else .ok ()
    | _ => .ok ()

/-- The child nodes `ast.iter_child_nodes` yields, in field order (context
and operator leaf nodes, which are always allowed, are folded away). -/
def children : PyAst → List PyAst
  | .expression b => [b]
  | .module body => body
  | .exprStmt e => [e]
  | .assign tgt v => [tgt, v]
  | .const _ => []
  | .name _ => []
  | .binop _ l r => [l, r]
  | .unaryop _ e => [e]
  | .boolop _ l r => [l, r]
  | .compare _ l r => [l, r]
  | .call f args => f :: args
  | .listLit elts => elts
  | .tupleLit elts => elts
  | .subscript v s => [v, s]
  | .sliceNode lo hi st => lo.toList ++ hi.toList ++ st.toList
  | .attr v _ => [v]

mutual
/-- Weight of a tree: one per node plus one per child slot, chosen so that
`psize t = 1 + psizeList (children t)` holds exactly (termination measure
for the breadth-first walk and the recursive predicates below). -/
def psize : PyAst → Nat
  | .expression b => 2 + psize b
  | .module body => 1 + psizeList body
  | .exprStmt e => 2 + psize e
  | .assign tgt v => 3 + psize tgt + psize v
  | .const _ => 1
  | .name _ => 1
  | .binop _ l r => 3 + psize l + psize r
  | .unaryop _ e => 2 + psize e
  | .boolop _ l r => 3 + psize l + psize r
  | .compare _ l r => 3 + psize l + psize r
  | .call f args => 2 + psize f + psizeList args
  | .listLit elts => 1 + psizeList elts
  | .tupleLit elts => 1 + psizeList elts
  | .subscript v s => 3 + psize v + psize s
  | .sliceNode lo hi st => 1 + psizeOpt lo + psizeOpt hi + psizeOpt st
  | .attr v _ => 2 + psize v

def psizeOpt : Option PyAst → Nat
  | Option.none => 0
  | some t => 1 + psize t

def psizeList : List PyAst → Nat
  | [] => 0
  | t :: ts => 1 + psize t + psizeList ts
end

theorem psize_pos (t : PyAst) : 0 < psize t := by
  cases t <;> simp [psize] <;> omega

theorem psizeList_append (xs ys : List PyAst) :
    psizeList (xs ++ ys) = psizeList xs + psizeList ys := by
  induction xs with
  | nil => simp [psizeList]
  | cons x xs ih => simp [psizeList, ih]; omega

theorem psizeList_toList (o : Option PyAst) :
    psizeList o.toList = psizeOpt o := by
  cases o <;> simp [psizeList, psizeOpt, Option.toList]

theorem psize_children (t : PyAst) : psize t = 1 + psizeList (children t) := by
  cases t <;>
    simp [children, psize, psizeList, psizeList_append, psizeList_toList] <;>
    try omega

theorem psizeList_children_lt (t : PyAst) : psizeList (children t) < psize t := by
  rw [psize_children]; omega

/-- `_validate_ast` (lines 72-84): `ast.walk` is a breadth-first traversal
over a queue seeded with the root; each dequeued node is checked and its
children are appended.  The first offending node determines the error. -/
def walkValidate : List PyAst → Except String Unit
  | [] => pure ()
  | t :: rest =>
    match checkNode t with
    | .error e => .error e
    | .ok _ => walkValidate (rest ++ children t)
termination_by q => psizeList q
decreasing_by
  simp [psizeList, psizeList_append]
  have := psizeList_children_lt t
  omega

/-- `_validate_ast(tree)` applied to a whole tree. -/
def validateAst (t : PyAst) : Except String Unit := walkValidate [t]

mutual
/-- Every node of the tree passes the per-node check of `_validate_ast`. -/
def allOk (t : PyAst) : Bool :=
  (match checkNode t with | .ok _ => true | .error _ => false) &&
  allOkList (children t)
termination_by 2 * psize t
decreasing_by
  have := psizeList_children_lt t; omega

def allOkList : List PyAst → Bool
  | [] => true
  | t :: ts => allOk t && allOkList ts
termination_by ts => 2 * psizeList ts + 1
decreasing_by
  all_goals (simp [psizeList] <;> omega)
end

theorem allOkList_iff (xs : List PyAst) :
    allOkList xs = true ↔ ∀ t ∈ xs, allOk t = true := by
  induction xs with
  | nil => simp [allOkList]
  | cons x xs ih => simp [allOkList, ih]

theorem psize_le_of_mem (c : PyAst) (xs : List PyAst) (h : c ∈ xs) :
    psize c ≤ psizeList xs := by
  induction xs with
  | nil => cases h
  | cons x xs ih =>
    cases h with
    | head => simp [psizeList]; omega
    | tail _ hm => have := ih hm; simp [psizeList]; omega

/-- A run of the breadth-first walk that accepts has accepted, node by node,
every tree still in the queue. -/
theorem walkValidate_ok (n : Nat) :
    ∀ (q : List PyAst), psizeList q ≤ n →
      walkValidate q = Except.ok () → ∀ t ∈ q, allOk t = true := by
  induction n with
  | zero =>
    intro q hq hw t ht
    have h1 := psize_le_of_mem t q ht
    have h2 := psize_pos t
    omega
  | succ n ih =>
    intro q hq hw t ht
    cases q with
    | nil => cases ht
    | cons h rest =>
      rw [walkValidate] at hw
      cases hcn : checkNode h with
      | error e => simp [hcn] at hw
      | ok u =>
        rw [hcn] at hw
        simp only [] at hw
        have hsz : psizeList (rest ++ children h) ≤ n := by
          have h1 := psizeList_children_lt h
          have h2 : psizeList (h :: rest) = 1 + psize h + psizeList rest := rfl
          rw [psizeList_append]
          omega
        have hall := ih (rest ++ children h) hsz hw
        cases ht with
        | head =>
          rw [allOk, hcn]
          simp only [Bool.true_and]
          rw [allOkList_iff]
          intro c hc
          exact hall c (List.mem_append_right _ hc)
        | tail _ hm => exact hall t (List.mem_append_left _ hm)

/-- The node itself is a call that `_validate_ast` must reject: the callee is
not a bare name, or it is a bare name outside `ALLOWED_CALLS`. -/
def badCallNode : PyAst → Bool
  | .call (.name f) _ => !(decide (f ∈ ALLOWED_CALLS))
  | .call _ _ => true
  | _ => false

mutual
/-- Some node of the tree (itself included) is a rejected call. -/
def containsBadCall (t : PyAst) : Bool :=
  badCallNode t || containsBadCallList (children t)
termination_by 2 * psize t
decreasing_by
  have := psizeList_children_lt t; omega

def containsBadCallList : List PyAst → Bool
  | [] => false
  | t :: ts => containsBadCall t || containsBadCallList ts
termination_by ts => 2 * psizeList ts + 1
decreasing_by
  all_goals (simp [psizeList] <;> omega)
end

theorem containsBadCallList_iff (xs : List PyAst) :
    containsBadCallList xs = true ↔ ∃ t ∈ xs, containsBadCall t = true := by
  induction xs with
  | nil => simp [containsBadCallList]
  | cons x xs ih => simp [containsBadCallList, ih]


theorem badCallNode_checkNode (t : PyAst) (h : badCallNode t = true) :
    ∃ e, checkNode t = Except.error e := by
  cases t with
  | call f args =>
    cases f with
    | name fid =>
      simp only [badCallNode, Bool.not_eq_true', decide_eq_false_iff_not] at h
      exact ⟨"Недопустимый вызов: " ++ fid ++ "()",
        by simp [checkNode, kindName, ALLOWED_NODES, h]⟩
    | _ =>
      exact ⟨"Разрешены только простые вызовы встроенных функций",
        by simp [checkNode, kindName, ALLOWED_NODES]⟩
  | _ => simp [badCallNode] at h

theorem psizeList_lt_of_mem (c : PyAst) (xs : List PyAst) (h : c ∈ xs) :
    psize c ≤ psizeList xs := psize_le_of_mem c xs h

/-- A tree containing a rejected call nowhere passes the node-by-node check. -/
theorem containsBadCall_not_allOk (n : Nat) :
    ∀ t : PyAst, psize t ≤ n → containsBadCall t = true → allOk t = false := by
  induction n with
  | zero =>
    intro t ht _
    have := psize_pos t
    omega
  | succ n ih =>
    intro t ht hb
    rw [containsBadCall] at hb
    rw [allOk]
    rcases Bool.or_eq_true_iff.mp hb with hbad | hlist
    · obtain ⟨e, he⟩ := badCallNode_checkNode t hbad
      simp [he]
    · obtain ⟨c, hc, hcb⟩ := (containsBadCallList_iff _).mp hlist
      have hsz : psize c ≤ n := by
        have h1 := psize_le_of_mem c _ hc
        have h2 := psizeList_children_lt t
        omega
      have := ih c hsz hcb
      have hfalse : allOkList (children t) = false := by
        cases hall : allOkList (children t) with
        | false => rfl
        | true => exact absurd ((allOkList_iff _).mp hall c hc) (by simp [this])
      simp [hfalse]

/-- Rejection of a tree containing a rejected call, derived for `validateAst`. -/
theorem validateAst_ok_allOk (t : PyAst) (h : validateAst t = Except.ok ()) :
    allOk t = true := by
  have := walkValidate_ok (psizeList [t]) [t] (le_refl _) h
  exact this t (by simp)

/-- The execution context: Python's name-to-value mapping in insertion
order (`globals_env` for expression mode, the `exec` locals for statement
mode). -/
abbrev Ctx := List (String × Value)

def lookup (σ : Ctx) (n : String) : Option Value :=
  (σ.find? (fun p => p.1 == n)).map (·.2)

/-- `dict.__setitem__`: overwrite in place, or append a new entry. -/
def updateCtx : Ctx → String → Value → Ctx
  | [], n, v => [(n, v)]
  | (k, w) :: rest, n, v =>
    if k == n then (k, v) :: rest else (k, w) :: updateCtx rest n v

/-- The values of `ALLOWED_BUILTINS` (lines 27-43), resolved by name when the
execution context does not shadow them. -/
def builtinValue (n : String) : Option Value :=
  if n = "None" then some .vnone
  else if n = "True" then some (.vbool true)
  else if n = "False" then some (.vbool false)
  else if n ∈ ALLOWED_CALLS then some (.vbuiltin n)
  else none

/-- Python truthiness (`bool(v)`); every embedded value has one. -/
def truthy : Value → Bool
  | .vnone => false
  | .vbool b => b
  | .vint i => i != 0
  | .vstr s => s != ""
  | .vlist xs => !xs.isEmpty
  | .vtuple xs => !xs.isEmpty
  | .vbytes bs => !bs.isEmpty
  | .vbytearray bs => !bs.isEmpty
  | .vrange a b c => !(rangeList a b c).isEmpty
  | .vbuiltin _ => true
  | .vslice _ _ _ => true

/-- `bool` and `int` both act as integers in arithmetic. -/
def asInt : Value → Option Int
  | .vbool b => some (if b then 1 else 0)
  | .vint i => some i
  | _ => none

/-- Binary operators on embedded values.  Arithmetic is integer arithmetic
(`//` is floor division, `%` has the divisor's sign, as in Python); `+`
concatenates like sequences; float-producing or exotic combinations are
outside the model and report a failure, as the claims never reach them. -/
def applyBin (k : BinK) (a b : Value) : Except String Value :=
  match k, a, b with
  | .add, .vstr x, .vstr y => .ok (.vstr (x ++ y))
  | .add, .vlist x, .vlist y => .ok (.vlist (x ++ y))
  | .add, .vtuple x, .vtuple y => .ok (.vtuple (x ++ y))
  | .add, x, y =>
    match asInt x, asInt y with
    | some i, some j => .ok (.vint (i + j))
    | _, _ => .error "unsupported operand type(s) for +"
  | .sub, x, y =>
    match asInt x, asInt y with
    | some i, some j => .ok (.vint (i - j))
    | _, _ => .error "unsupported operand type(s) for -"
  | .mult, x, y =>
    match asInt x, asInt y with
    | some i, some j => .ok (.vint (i * j))
    | _, _ => .error "unsupported operand type(s) for *"
  | .div, _, _ => .error "вещественное деление не моделируется"
  | .floorDiv, x, y =>
    match asInt x, asInt y with
    | some i, some j =>
      if j = 0 then .error "integer division or modulo by zero"
      else .ok (.vint (Int.fdiv i j))
    | _, _ => .error "unsupported operand type(s) for //"
  | .mod, x, y =>
    match asInt x, asInt y with
    | some i, some j =>
      if j = 0 then .error "integer division or modulo by zero"
      else .ok (.vint (Int.fmod i j))
    | _, _ => .error "unsupported operand type(s) for %"
  | .pow, x, y =>
    match asInt x, asInt y with
    | some i, some j =>
      if j < 0 then .error "отрицательная степень не моделируется"
      else .ok (.vint (i ^ j.toNat))
    | _, _ => .error "unsupported operand type(s) for **"
  | _, _, _ => .error "этот двоичный оператор не моделируется"

def applyUn (k : UnK) (a : Value) : Except String Value :=
  match k, a with
  | .uadd, x =>
    match asInt x with
    | some i => .ok (.vint i)
    | none => .error "bad operand type for unary +"
  | .usub, x =>
    match asInt x with
    | some i => .ok (.vint (-i))
    | none => .error "bad operand type for unary -"
  | .notOp, x => .ok (.vbool (!truthy x))
  | .invert, x =>
    match asInt x with
    | some i => .ok (.vint (-(i + 1)))
    | none => .error "bad operand type for unary ~"

/-- Integer comparison used by `<`, `<=`, `>`, `>=` (`bool` coerces). -/
def cmpLt (a b : Value) : Except String Bool :=
  match asInt a, asInt b with
  | some i, some j => .ok (i < j)
  | _, _ => .error "order comparison is modelled for integers only"

def applyCmp (k : CmpK) (a b : Value) : Except String Value :=
  match k with
  | .eq => .ok (.vbool (pyEq a b))
  | .notEq => .ok (.vbool (!pyEq a b))
  | .lt => (cmpLt a b).map .vbool
  | .gt => (cmpLt b a).map .vbool
  | .ltE => (cmpLt b a).map (fun r => .vbool (!r))
  | .gtE => (cmpLt a b).map (fun r => .vbool (!r))
  | .isOp =>
    -- identity is modelled only against the unique `None` object
    match a, b with
    | .vnone, .vnone => .ok (.vbool true)
    | .vnone, _ => .ok (.vbool false)
    | _, .vnone => .ok (.vbool false)
    | _, _ => .error "проверка идентичности моделируется только с None"
  | .isNot =>
    match a, b with
    | .vnone, .vnone => .ok (.vbool false)
    | .vnone, _ => .ok (.vbool true)
    | _, .vnone => .ok (.vbool true)
    | _, _ => .error "проверка идентичности моделируется только с None"
  | .inOp =>
    match b with
    | .vlist xs => .ok (.vbool (xs.any (pyEq a)))
    | .vtuple xs => .ok (.vbool (xs.any (pyEq a)))
    | _ => .error "membership is modelled for lists and tuples only"
  | .notIn =>
    match b with
    | .vlist xs => .ok (.vbool (!xs.any (pyEq a)))
    | .vtuple xs => .ok (.vbool (!xs.any (pyEq a)))
    | _ => .error "membership is modelled for lists and tuples only"

/-- The elements of a value viewed as an iterable sequence. -/
def seqElems : Value → Option (List Value)
  | .vlist xs => some xs
  | .vtuple xs => some xs
  | .vrange a b c => some ((rangeList a b c).map .vint)
  | .vstr s => some (s.toList.map (fun ch => .vstr (String.mk [ch])))
  | .vbytes bs => some (bs.map (fun n => .vint n))
  | .vbytearray bs => some (bs.map (fun n => .vint n))
  | _ => none

def intList : List Value → Option (List Int)
  | [] => some []
  | v :: vs => do
    let i ← asInt v
    let is ← intList vs
    pure (i :: is)

/-- The closed set of pure builtins of `ALLOWED_BUILTINS`, applied to
positional argument values.  `set`/`dict` construction is outside the
embedded value model. -/
def applyBuiltin (f : String) (args : List Value) : Except String Value :=
  match f, args with
  | "len", [v] =>
    match v with
    | .vstr s => .ok (.vint s.length)
    | .vlist xs => .ok (.vint xs.length)
    | .vtuple xs => .ok (.vint xs.length)
    | .vbytes bs => .ok (.vint bs.length)
    | .vbytearray bs => .ok (.vint bs.length)
    | .vrange a b c => .ok (.vint (rangeList a b c).length)
    | _ => .error "object has no len()"
  | "sum", [v] =>
    match seqElems v with
    | some xs =>
      match intList xs with
      | some is => .ok (.vint (is.foldl (· + ·) 0))
      | none => .error "unsupported operand type(s) for +"
    | none => .error "object is not iterable"
  | "min", [v] =>
    match seqElems v with
    | some xs =>
      match intList xs with
      | some [] => .error "min() arg is an empty sequence"
      | some (i :: is) => .ok (.vint (is.foldl Min.min i))
      | none => .error "comparison is modelled for integers only"
    | none => .error "object is not iterable"
  | "max", [v] =>
    match seqElems v with
    | some xs =>
      match intList xs with
      | some [] => .error "max() arg is an empty sequence"
      | some (i :: is) => .ok (.vint (is.foldl Max.max i))
      | none => .error "comparison is modelled for integers only"
    | none => .error "object is not iterable"
  | "sorted", [v] =>
    match seqElems v with
    | some xs =>
      match intList xs with
      | some is => .ok (.vlist ((is.mergeSort (· ≤ ·)).map .vint))
      | none => .error "comparison is modelled for integers only"
    | none => .error "object is not iterable"
  | "range", [v] =>
    match asInt v with
    | some b => .ok (.vrange 0 b 1)
    | none => .error "range() argument must be an integer"
  | "range", [u, v] =>
    match asInt u, asInt v with
    | some a, some b => .ok (.vrange a b 1)
    | _, _ => .error "range() argument must be an integer"
  | "range", [u, v, w] =>
    match asInt u, asInt v, asInt w with
    | some a, some b, some c =>
      if c = 0 then .error "range() arg 3 must not be zero"
      else .ok (.vrange a b c)
    | _, _, _ => .error "range() argument must be an integer"
  | "list", [] => .ok (.vlist [])
  | "list", [v] =>
    match seqElems v with
    | some xs => .ok (.vlist xs)
    | none => .error "object is not iterable"
  | "tuple", [] => .ok (.vtuple [])
  | "tuple", [v] =>
    match seqElems v with
    | some xs => .ok (.vtuple xs)
    | none => .error "object is not iterable"
  | "bytes", [v] =>
    match v with
    | .vbytes bs => .ok (.vbytes bs)
    | .vbytearray bs => .ok (.vbytes bs)
    | .vstr _ => .error "string argument without an encoding"
    | _ => .error "конструктор bytes для этого аргумента не моделируется"
  | "bytearray", [v] =>
    match v with
    | .vbytes bs => .ok (.vbytearray bs)
    | .vbytearray bs => .ok (.vbytearray bs)
    | .vstr _ => .error "string argument without an encoding"
    | _ => .error "конструктор bytearray для этого аргумента не моделируется"
  | "set", _ => .error "значения-множества не моделируются"
  | "dict", _ => .error "значения-словари не моделируются"
  | _, _ => .error ("вызов " ++ f ++ " с такими аргументами не моделируется")

/-- Normalize a Python index: negative indexing counts from the end. -/
def normIdx (i : Int) (len : Nat) : Int :=
  if i < 0 then i + len else i

/-- `v[i]` for an integer (or boolean) index. -/
def pyIndex (v : Value) (iv : Value) : Except String Value :=
  match asInt iv with
  | none => .error "indices must be integers or slices"
  | some i =>
    match v with
    | .vlist xs =>
      let j := normIdx i xs.length
      if h : 0 ≤ j ∧ j.toNat < xs.length then .ok (xs.get ⟨j.toNat, h.2⟩)
      else .error "list index out of range"
    | .vtuple xs =>
      let j := normIdx i xs.length
      if h : 0 ≤ j ∧ j.toNat < xs.length then .ok (xs.get ⟨j.toNat, h.2⟩)
      else .error "tuple index out of range"
    | .vstr s =>
      let cs := s.toList
      let j := normIdx i cs.length
      if h : 0 ≤ j ∧ j.toNat < cs.length then
        .ok (.vstr (String.mk [cs.get ⟨j.toNat, h.2⟩]))
      else .error "string index out of range"
    | .vbytes bs =>
      let j := normIdx i bs.length
      if h : 0 ≤ j ∧ j.toNat < bs.length then .ok (.vint (bs.get ⟨j.toNat, h.2⟩))
      else .error "index out of range"
    | .vbytearray bs =>
      let j := normIdx i bs.length
      if h : 0 ≤ j ∧ j.toNat < bs.length then .ok (.vint (bs.get ⟨j.toNat, h.2⟩))
      else .error "bytearray index out of range"
    | .vrange a b c =>
      let rl := rangeList a b c
      let j := normIdx i rl.length
      if h : 0 ≤ j ∧ j.toNat < rl.length then .ok (.vint (rl.get ⟨j.toNat, h.2⟩))
      else .error "range object index out of range"
    | _ => .error "object is not subscriptable"

/-- Clamp a slice bound to `[0, len]`, counting negatives from the end. -/
def sliceBound (o : Option Value) (dflt : Nat) (len : Nat) : Except String Nat :=
  match o with
  | Option.none => .ok dflt
  | some v =>
    match asInt v with
    | some i =>
      if i < 0 then .ok (max 0 (len + i)).toNat
      else .ok (min i len).toNat
    | none => .error "slice indices must be integers or None"

/-- `v[lo:hi]` (a unit step; stepped slices are outside the model). -/
def pySlice (v : Value) (lo hi st : Option Value) : Except String Value :=
  match st with
  | some sv =>
    if pyEq sv .vnone then pySliceCore v lo hi else .error "срез с шагом не моделируется"
  | Option.none => pySliceCore v lo hi
where
  pySliceCore (v : Value) (lo hi : Option Value) : Except String Value :=
    let slice {α} (xs : List α) : Except String (List α) := do
      let a ← sliceBound lo 0 xs.length
      let b ← sliceBound hi xs.length xs.length
      pure ((xs.drop a).take (b - a))
    match v with
    | .vlist xs => (slice xs).map .vlist
    | .vtuple xs => (slice xs).map .vtuple
    | .vstr s => (slice s.toList).map (fun cs => .vstr (String.mk cs))
    | .vbytes bs => (slice bs).map .vbytes
    | .vbytearray bs => (slice bs).map .vbytearray
    | _ => .error "object is not subscriptable"

/-- `list.remove` helper: drop the first element equal (by `==`) to `v`. -/
def removeFirst : List Value → Value → List Value
  | [], _ => []
  | x :: xs, v => if pyEq v x then xs else x :: removeFirst xs v

mutual
/-- The restricted evaluator, expression mode: CPython's `eval` of a
compiled expression, threaded through the execution context so that the
(statement-mode-only) mutating method calls are visible in the result.
Name resolution consults the context first and the allow-listed builtins
second, exactly as `{**ALLOWED_BUILTINS, **env}` resolves. -/
def evalS (t : PyAst) (σ : Ctx) : Except String (Value × Ctx) :=
  match t with
  | .const .cnone => .ok (.vnone, σ)
  | .const (.cbool b) => .ok (.vbool b, σ)
  | .const (.cint i) => .ok (.vint i, σ)
  | .const (.cstr s) => .ok (.vstr s, σ)
  | .const (.cbytes bs) => .ok (.vbytes bs, σ)
  | .name n =>
    match lookup σ n with
    | some v => .ok (v, σ)
    | Option.none =>
      match builtinValue n with
      | some v => .ok (v, σ)
      | Option.none => .error ("name '" ++ n ++ "' is not defined")
  | .binop k l r =>
    match evalS l σ with
    | .error e => .error e
    | .ok (a, σ1) =>
      match evalS r σ1 with
      | .error e => .error e
      | .ok (b, σ2) =>
        match applyBin k a b with
        | .error e => .error e
        | .ok v => .ok (v, σ2)
  | .unaryop k e =>
    match evalS e σ with
    | .error e => .error e
    | .ok (a, σ1) =>
      match applyUn k a with
      | .error e => .error e
      | .ok v => .ok (v, σ1)
  | .boolop k l r =>
    match evalS l σ with
    | .error e => .error e
    | .ok (a, σ1) =>
      match k with
      | .andOp => if truthy a then evalS r σ1 else .ok (a, σ1)
      | .orOp => if truthy a then .ok (a, σ1) else evalS r σ1
  | .compare k l r =>
    match evalS l σ with
    | .error e => .error e
    | .ok (a, σ1) =>
      match evalS r σ1 with
      | .error e => .error e
      | .ok (b, σ2) =>
        match applyCmp k a b with
        | .error e => .error e
        | .ok v => .ok (v, σ2)
  | .call (.name fn) args =>
    match (match lookup σ fn with
           | some v => (Except.ok v : Except String Value)
           | Option.none =>
             match builtinValue fn with
             | some v => .ok v
             | Option.none => .error ("name \'" ++ fn ++ "\' is not defined")) with
    | .error e => .error e
    | .ok fv =>
      match evalListS args σ with
      | .error e => .error e
      | .ok (avs, σ1) =>
        match fv with
        | .vbuiltin b =>
          match applyBuiltin b avs with
          | .error e => .error e
          | .ok v => .ok (v, σ1)
        | _ => .error "object is not callable"
  | .call (.attr (.name n) meth) args =>
    -- a bound-method call on a named binding (statement mode only):
    -- the mutating list methods update the context entry in place
    match lookup σ n with
    | Option.none => .error ("name \'" ++ n ++ "\' is not defined")
    | some recv =>
      match evalListS args σ with
      | .error e => .error e
      | .ok (avs, σ1) =>
        match recv, meth, avs with
        | .vlist xs, "append", [v] => .ok (.vnone, updateCtx σ1 n (.vlist (xs ++ [v])))
        | .vlist xs, "remove", [v] =>
          if xs.any (pyEq v) then
            .ok (.vnone, updateCtx σ1 n (.vlist (removeFirst xs v)))
          else .error "list.remove(x): x not in list"
        | .vlist xs, "copy", [] => .ok (.vlist xs, σ1)
        | _, _, _ => .error ("вызов метода " ++ meth ++ " не моделируется")
  | .call _ _ => .error "вызов этого вида не моделируется"
  | .listLit elts =>
    match evalListS elts σ with
    | .error e => .error e
    | .ok (vs, σ1) => .ok (.vlist vs, σ1)
  | .tupleLit elts =>
    match evalListS elts σ with
    | .error e => .error e
    | .ok (vs, σ1) => .ok (.vtuple vs, σ1)
  | .subscript obj idx =>
    -- CPython evaluates the object, then the index expression (a slice
    -- expression builds a slice value), then subscripts
    match evalS obj σ with
    | .error e => .error e
    | .ok (ov, σ1) =>
      match evalS idx σ1 with
      | .error e => .error e
      | .ok (iv, σ2) =>
        match (match iv with
               | .vslice lov hiv stv => pySlice ov lov hiv stv
               | _ => pyIndex ov iv) with
        | .error e => .error e
        | .ok v => .ok (v, σ2)
  | .sliceNode lo hi st =>
    -- a slice expression evaluates its bounds into a slice value
    match evalOptS lo σ with
    | .error e => .error e
    | .ok (lov, σ1) =>
      match evalOptS hi σ1 with
      | .error e => .error e
      | .ok (hiv, σ2) =>
        match evalOptS st σ2 with
        | .error e => .error e
        | .ok (stv, σ3) => .ok (.vslice lov hiv stv, σ3)
  | .attr _ _ => .error "чтение атрибута не моделируется"
  | t => .error ("узел не является выражением: " ++ kindName t)
termination_by 2 * psize t
decreasing_by all_goals (simp [psize, psizeList, psizeOpt] <;> omega)

def evalListS (ts : List PyAst) (σ : Ctx) : Except String (List Value × Ctx) :=
  match ts with
  | [] => .ok ([], σ)
  | e :: es =>
    match evalS e σ with
    | .error err => .error err
    | .ok (v, σ1) =>
      match evalListS es σ1 with
      | .error err => .error err
      | .ok (vs, σ2) => .ok (v :: vs, σ2)
termination_by 2 * psizeList ts + 1
decreasing_by
  all_goals (simp [psizeList] <;> omega)

def evalOptS (o : Option PyAst) (σ : Ctx) : Except String (Option Value × Ctx) :=
  match o with
  | Option.none => .ok (Option.none, σ)
  | some e =>
    match evalS e σ with
    | .error err => .error err
    | .ok (v, σ1) => .ok (some v, σ1)
termination_by 2 * psizeOpt o + 1
decreasing_by
  all_goals (simp [psizeOpt] <;> omega)
end

/-- Item assignment `cur[i] = v` on a mutable container. -/
def setIndex (cur : Value) (iv v : Value) : Except String Value :=
  match asInt iv with
  | Option.none => .error "indices must be integers or slices"
  | some i =>
    match cur with
    | .vlist xs =>
      let j := normIdx i xs.length
      if 0 ≤ j ∧ j.toNat < xs.length then .ok (.vlist (xs.set j.toNat v))
      else .error "list assignment index out of range"
    | .vbytearray bs =>
      match asInt v with
      | Option.none => .error "an integer is required"
      | some b =>
        if b < 0 ∨ 256 ≤ b then .error "byte must be in range(0, 256)"
        else
          let j := normIdx i bs.length
          if 0 ≤ j ∧ j.toNat < bs.length then .ok (.vbytearray (bs.set j.toNat b.toNat))
          else .error "bytearray index out of range"
    | .vstr _ => .error "'str' object does not support item assignment"
    | .vtuple _ => .error "'tuple' object does not support item assignment"
    | _ => .error "object does not support item assignment"

/-- Full-slice assignment `cur[:] = v`: replace the container's contents
with the elements of the iterable `v`, in place. -/
def setFullSlice (cur : Value) (v : Value) : Except String Value :=
  match cur with
  | .vlist _ =>
    match seqElems v with
    | some xs => .ok (.vlist xs)
    | Option.none => .error "can only assign an iterable"
  | .vbytearray _ =>
    match v with
    | .vbytes bs => .ok (.vbytearray bs)
    | .vbytearray bs => .ok (.vbytearray bs)
    | _ => .error "срезовое присваивание байтов этого вида не моделируется"
  | _ => .error "object does not support slice assignment"

/-- One statement of the `exec` fragment the mutation answers use:
expression statements (mutating method calls) and subscript assignments
through a named binding.  Re-binding a bare name inside `exec` would leave
the checker's original object untouched and is outside the fragment; the
model reports it instead of silently mis-modelling it. -/
def execStmt (t : PyAst) (σ : Ctx) : Except String Ctx :=
  match t with
  | .exprStmt e =>
    match evalS e σ with
    | .error err => .error err
    | .ok (_, σ1) => .ok σ1
  | .assign (.subscript (.name n) idx) rhs =>
    -- Python evaluates the right-hand side first, then the target
    match evalS rhs σ with
    | .error err => .error err
    | .ok (v, σ1) =>
      match lookup σ1 n with
      | Option.none => .error ("name '" ++ n ++ "' is not defined")
      | some cur =>
        match idx with
        | .sliceNode Option.none Option.none Option.none =>
          match setFullSlice cur v with
          | .error err => .error err
          | .ok newv => .ok (updateCtx σ1 n newv)
        | .sliceNode _ _ _ => .error "частичное срезовое присваивание не моделируется"
        | _ =>
          match evalS idx σ1 with
          | .error err => .error err
          | .ok (iv, σ2) =>
            match setIndex cur iv v with
            | .error err => .error err
            | .ok newv => .ok (updateCtx σ2 n newv)
  | .assign _ _ => .error "присваивание этого вида не моделируется"
  | t => .error ("инструкция этого вида не моделируется: " ++ kindName t)

def execStmtList : List PyAst → Ctx → Except String Ctx
  | [], σ => .ok σ
  | t :: ts, σ =>
    match execStmt t σ with
    | .error err => .error err
    | .ok σ1 => execStmtList ts σ1

/-- `exec(ans, {}, locals)`: run the statements of a parsed module against
the locals mapping and return its final state. -/
def execModule (t : PyAst) (σ : Ctx) : Except String Ctx :=
  match t with
  | .module body => execStmtList body σ
  | _ => .error "exec ожидает модуль инструкций"

/-- The environment-key loop of `safe_eval` (lines 96-101): every key must
already be a permitted identifier, or the evaluation call is rejected
naming the offending variable. -/
def checkEnvKeys : Ctx → Except String Unit
  | [] => .ok ()
  | (k, _) :: rest =>
    if ¬ (k ∈ ALLOWED_NAMES) then
      .error ("Недопустимое имя переменной окружения: " ++ k)
    else checkEnvKeys rest

/-- `safe_eval` after parsing (lines 92-102): `ast.parse(expr, mode='eval')`
wraps the expression in an `Expression` root; `_validate_ast` walks that
whole tree; then the environment keys are checked; then the compiled
expression is evaluated against builtins overridden by the environment. -/
def safeEvalAst (body : PyAst) (env : Ctx) : Except String (Value × Ctx) :=
  match validateAst (.expression body) with
  | .error e => .error e
  | .ok _ =>
    match checkEnvKeys env with
    | .error e => .error e
    | .ok _ => evalS body env

/-- Python's default `str.strip` whitespace (the ASCII part; the answers
never contain other whitespace). -/
def isSpaceChar (c : Char) : Bool :=
  c = ' ' || c = '\t' || c = '\n' || c = '\r' || c = '\x0b' || c = '\x0c'

/-- `str.strip()`. -/
def pyStrip (s : String) : String :=
  String.mk (((s.toList.dropWhile isSpaceChar).reverse.dropWhile isSpaceChar).reverse)

def splitOnSemi : List Char → List (List Char)
  | [] => [[]]
  | c :: cs =>
    match splitOnSemi cs with
    | [] => [[]]
    | g :: gs => if c = ';' then [] :: g :: gs else (c :: g) :: gs

/-- `str.split(';')`: every occurrence of the separator produces a cut;
empty pieces are kept, as Python keeps them. -/
def pySplitSemi (s : String) : List String :=
  (splitOnSemi s.toList).map String.mk

/-- `safe_eval` (lines 87-102) at the string level: strip, reject blank
input before parsing, parse (the parser is Python's, hence an abstract
argument), then validate and evaluate. -/
def safe_eval (parse : String → Except String PyAst) (expr : String) (env : Ctx) :
    Except String (Value × Ctx) :=
  let e2 := pyStrip expr
  if e2 = "" then .error "Пустое выражение"
  else
    match parse e2 with
    | .error e => .error e
    | .ok body => safeEvalAst body env

/-- String rendering of a byte as Python's `repr` of `bytes` shows it. -/
def byteChar (n : Nat) : String :=
  if 32 ≤ n ∧ n ≤ 126 ∧ n ≠ 39 ∧ n ≠ 92 then String.mk [Char.ofNat n]
  else "\x5cx" ++ String.mk [(Nat.digitChar (n / 16)), (Nat.digitChar (n % 16))]

def bytesBody (bs : List Nat) : String :=
  String.join (bs.map byteChar)

mutual
/-- Python `repr` of an embedded value (string escaping is elided: the
trainer's messages only interpolate integers and simple containers). -/
def pyRepr : Value → String
  | .vnone => "None"
  | .vbool true => "True"
  | .vbool false => "False"
  | .vint i => toString i
  | .vstr s => "'" ++ s ++ "'"
  | .vlist xs => "[" ++ pyReprList xs ++ "]"
  | .vtuple [x] => "(" ++ pyRepr x ++ ",)"
  | .vtuple xs => "(" ++ pyReprList xs ++ ")"
  | .vbytes bs => "b'" ++ bytesBody bs ++ "'"
  | .vbytearray bs => "bytearray(b'" ++ bytesBody bs ++ "')"
  | .vrange a b c =>
    if c = 1 then "range(" ++ toString a ++ ", " ++ toString b ++ ")"
    else "range(" ++ toString a ++ ", " ++ toString b ++ ", " ++ toString c ++ ")"
  | .vbuiltin f => "<built-in function " ++ f ++ ">"
  | .vslice a b c =>
    "slice(" ++ pyReprOpt a ++ ", " ++ pyReprOpt b ++ ", " ++ pyReprOpt c ++ ")"

def pyReprList : List Value → String
  | [] => ""
  | [x] => pyRepr x
  | x :: xs => pyRepr x ++ ", " ++ pyReprList xs

def pyReprOpt : Option Value → String
  | Option.none => "None"
  | some v => pyRepr v
end

-- ----------------------------- Checker strategies -----------------------------

/-- `check_exact` (lines 121-126). -/
def check_exact (expected : String) (ans : String) : Bool × String :=
  let exp := pyStrip expected
  let ok := pyStrip ans == exp
  (ok, if ok then "Верно!" else "Ожидалось: " ++ exp)

/-- `check_eval_equals` (lines 138-147), at the syntax-tree level: failures
of `safe_eval` are caught and folded into a failing verdict; otherwise the
value is compared to the expected value by `==`. -/
def check_eval_equals (env : Ctx) (expected : Value) (ans : PyAst) : Bool × String :=
  match safeEvalAst ans env with
  | .error e => (false, "Ошибка разбора/вычисления: " ++ e)
  | .ok (val, _) =>
    let ok := pyEq val expected
    let expl := "Получилось " ++ pyRepr val ++ ", ожидалось " ++ pyRepr expected
    (ok, (if ok then "Верно! " else "Неверно. ") ++ expl)

/-- `check_eval_predicate` (lines 150-158). -/
def check_eval_predicate (env : Ctx) (predicate : Value → Bool)
    (expected_str : String) (ans : PyAst) : Bool × String :=
  match safeEvalAst ans env with
  | .error e => (false, "Ошибка: " ++ e)
  | .ok (val, _) =>
    let ok := predicate val
    (ok, if ok then "Верно!" else "Неверно. Ожидалось: " ++ expected_str)

/-- `check_textio` (lines 161-167): the answer is split on `;`, each part
is trimmed, parts empty after trimming are dropped (the comprehension's
`if x.strip()`), and the list is compared to the trimmed expected lines. -/
def check_textio (expected_lines : List String) (ans : String) : Bool × String :=
  let exp := expected_lines.map (fun l => pyStrip l)
  let got := (pySplitSemi (pyStrip ans)).filterMap
    (fun x => let y := pyStrip x; if y = "" then Option.none else some y)
  let ok := got == exp
  (ok, if ok then "Верно!" else "Ожидалось: " ++ String.intercalate "; " exp)

/-- `isinstance(v, list)`. -/
def isListV : Value → Bool
  | .vlist _ => true
  | _ => false

/-- Python `v is not None`: `None` is a unique object, so identity against
it coincides with not being the `None` value. -/
def isNotNoneV : Value → Bool
  | .vnone => false
  | _ => true

/-- The predicate of the `list_copy` task (line 297):
`lambda v: isinstance(v, list) and v == [1,2,3] and v is not None`. -/
def listCopyPred (v : Value) : Bool :=
  isListV v && pyEq v (.vlist [.vint 1, .vint 2, .vint 3]) && isNotNoneV v

/-- The `list_copy` checker (lines 291-298). -/
def list_copy_checker : PyAst → Bool × String :=
  check_eval_predicate [("a", .vlist [.vint 1, .vint 2, .vint 3])]
    listCopyPred "список-копия"

/-- The `list_remove_evens` lambda checker (lines 311-334): run the answer
with `exec(ans, {}, {'nums': [1,2,3,4,5,6]})` — a fresh list every call —
and test `isinstance(res, list) and res == [1,3,5]` on the post-state of
the binding.  There is no try/except: an exception inside `exec` escapes
the checker, which the `Except` error channel records.  (The source
computes the same boolean twice, once for the verdict and once for the
message; the model computes it once.) -/
def list_remove_evens_checker (ans : PyAst) : Except String (Bool × String) :=
  match execModule ans
      [("nums", .vlist [.vint 1, .vint 2, .vint 3, .vint 4, .vint 5, .vint 6])] with
  | .error e => .error e
  | .ok σ =>
    let res := (lookup σ "nums").getD .vnone
    let ok := isListV res && pyEq res (.vlist [.vint 1, .vint 3, .vint 5])
    .ok (ok, if ok then "Верно!" else "Неверно. Ожидалось, что nums станет [1,3,5]")

/-- The `bytearray_modify` lambda checker (lines 394-413): run the answer
with `exec(ans, {}, {'ba': bytearray(b'abc')})` and test
`res == bytearray(b'Abc')` on the post-state of the binding; again no
try/except around `exec`. -/
def bytearray_modify_checker (ans : PyAst) : Except String (Bool × String) :=
  match execModule ans [("ba", .vbytearray [97, 98, 99])] with
  | .error e => .error e
  | .ok σ =>
    let res := (lookup σ "ba").getD .vnone
    let ok := pyEq res (.vbytearray [65, 98, 99])
    .ok (ok, if ok then "Верно!" else "Неверно. Ожидалось bytearray(b'Abc')")

/-- The `try/except` around `task.checker(ans)` in `run_tasks`
(lines 481-484): an exception escaping a checker is caught by the session
loop and turned into a failing verdict. -/
def sessionCheck (checker : PyAst → Except String (Bool × String)) (ans : PyAst) :
    Bool × String :=
  match checker ans with
  | .ok r => r
  | .error e => (false, "Ошибка проверки: " ++ e)

/-- The node is an attribute access (`ast.Attribute`) — the only node kind
whose evaluation (as a method-call callee in statement mode) can write to
the execution context, and a kind `_validate_ast` always rejects. -/
def isAttrNode : PyAst → Bool
  | .attr _ _ => true
  | _ => false

mutual
/-- Some node of the tree (itself included) is an attribute access. -/
def containsAttr (t : PyAst) : Bool :=
  isAttrNode t || containsAttrList (children t)
termination_by 2 * psize t
decreasing_by
  have := psizeList_children_lt t; omega

def containsAttrList : List PyAst → Bool
  | [] => false
  | t :: ts => containsAttr t || containsAttrList ts
termination_by ts => 2 * psizeList ts + 1
decreasing_by
  all_goals (simp [psizeList] <;> omega)
end

theorem containsAttrList_iff (xs : List PyAst) :
    containsAttrList xs = true ↔ ∃ t ∈ xs, containsAttr t = true := by
  induction xs with
  | nil => simp [containsAttrList]
  | cons x xs ih => simp [containsAttrList, ih]

theorem containsAttrList_false_iff (xs : List PyAst) :
    containsAttrList xs = false ↔ ∀ t ∈ xs, containsAttr t = false := by
  rw [← Bool.not_eq_true, containsAttrList_iff]
  simp

theorem containsAttr_children (t : PyAst) (h : containsAttr t = false) :
    ∀ c ∈ children t, containsAttr c = false := by
  intro c hc
  rw [containsAttr] at h
  simp only [Bool.or_eq_false_iff] at h
  exact (containsAttrList_false_iff _).mp h.2 c hc

/-- Expression evaluation is read-only on the execution context as long as
the tree has no attribute node: the only context-writing branch of the
evaluator is the mutating bound-method call, whose callee is an attribute
access. -/
theorem evalS_preserve (n : Nat) :
    (∀ t σ v σ', psize t ≤ n → containsAttr t = false →
       evalS t σ = Except.ok (v, σ') → σ' = σ) ∧
    (∀ ts σ vs σ', psizeList ts ≤ n → containsAttrList ts = false →
       evalListS ts σ = Except.ok (vs, σ') → σ' = σ) ∧
    (∀ o σ vo σ', psizeOpt o ≤ n →
       (∀ e, o = some e → containsAttr e = false) →
       evalOptS o σ = Except.ok (vo, σ') → σ' = σ) := by
  induction n with
  | zero =>
    refine ⟨?_, ?_, ?_⟩
    · intro t σ v σ' hsz _ _
      have := psize_pos t
      omega
    · intro ts σ vs σ' hsz _ hev
      cases ts with
      | nil => rw [evalListS] at hev; cases hev; rfl
      | cons e es => simp [psizeList] at hsz
    · intro o σ vo σ' hsz _ hev
      cases o with
      | none => rw [evalOptS] at hev; cases hev; rfl
      | some e => simp [psizeOpt] at hsz
  | succ n ih =>
    obtain ⟨iht, ihl, iho⟩ := ih
    refine ⟨?_, ?_, ?_⟩
    · intro t σ v σ' hsz hna hev
      have hch := containsAttr_children t hna
      cases t with
      | const c =>
        cases c <;> (rw [evalS] at hev; cases hev; rfl)
      | name nm =>
        rw [evalS] at hev
        cases hln : lookup σ nm with
        | some w => simp only [hln] at hev; cases hev; rfl
        | none =>
          simp only [hln] at hev
          cases hbn : builtinValue nm with
          | some w => simp only [hbn] at hev; cases hev; rfl
          | none => simp only [hbn] at hev; cases hev
      | binop k l r =>
        have hl' : containsAttr l = false := hch l (by simp [children])
        have hr' : containsAttr r = false := hch r (by simp [children])
        rw [evalS] at hev
        cases hl : evalS l σ with
        | error e => simp [hl] at hev
        | ok p =>
          obtain ⟨a, σ1⟩ := p
          simp only [hl] at hev
          cases hr : evalS r σ1 with
          | error e => simp [hr] at hev
          | ok q =>
            obtain ⟨b, σ2⟩ := q
            simp only [hr] at hev
            cases hab : applyBin k a b with
            | error e => simp [hab] at hev
            | ok w =>
              simp only [hab] at hev
              cases hev
              have e1 := iht l σ a σ1 (by simp [psize] at hsz; omega) hl' hl
              have e2 := iht r σ1 b σ' (by simp [psize] at hsz; omega) hr' hr
              exact e2.trans e1
      | unaryop k e =>
        have he' : containsAttr e = false := hch e (by simp [children])
        rw [evalS] at hev
        cases hl : evalS e σ with
        | error err => simp [hl] at hev
        | ok p =>
          obtain ⟨a, σ1⟩ := p
          simp only [hl] at hev
          cases hap : applyUn k a with
          | error err => simp [hap] at hev
          | ok w =>
            simp only [hap] at hev
            cases hev
            exact iht e σ a σ' (by simp [psize] at hsz; omega) he' hl
      | boolop k l r =>
        have hl' : containsAttr l = false := hch l (by simp [children])
        have hr' : containsAttr r = false := hch r (by simp [children])
        rw [evalS] at hev
        cases hl : evalS l σ with
        | error e => simp [hl] at hev
        | ok p =>
          obtain ⟨a, σ1⟩ := p
          simp only [hl] at hev
          have e1 := iht l σ a σ1 (by simp [psize] at hsz; omega) hl' hl
          cases k with
          | andOp =>
            cases ht : truthy a with
            | true =>
              simp only [ht, if_true] at hev
              have e2 := iht r σ1 v σ' (by simp [psize] at hsz; omega) hr' hev
              exact e2.trans e1
            | false =>
              simp only [ht, Bool.false_eq_true, if_false] at hev
              cases hev
              exact e1
          | orOp =>
            cases ht : truthy a with
            | true =>
              simp only [ht, if_true] at hev
              cases hev
              exact e1
            | false =>
              simp only [ht, Bool.false_eq_true, if_false] at hev
              have e2 := iht r σ1 v σ' (by simp [psize] at hsz; omega) hr' hev
              exact e2.trans e1
      | compare k l r =>
        have hl' : containsAttr l = false := hch l (by simp [children])
        have hr' : containsAttr r = false := hch r (by simp [children])
        rw [evalS] at hev
        cases hl : evalS l σ with
        | error e => simp [hl] at hev
        | ok p =>
          obtain ⟨a, σ1⟩ := p
          simp only [hl] at hev
          cases hr : evalS r σ1 with
          | error e => simp [hr] at hev
          | ok q =>
            obtain ⟨b, σ2⟩ := q
            simp only [hr] at hev
            cases hab : applyCmp k a b with
            | error e => simp [hab] at hev
            | ok w =>
              simp only [hab] at hev
              cases hev
              have e1 := iht l σ a σ1 (by simp [psize] at hsz; omega) hl' hl
              have e2 := iht r σ1 b σ' (by simp [psize] at hsz; omega) hr' hr
              exact e2.trans e1
      | call f args =>
        cases f with
        | name fn =>
          have hargs : containsAttrList args = false := by
            rw [containsAttrList_false_iff]
            intro c hc
            exact hch c (by simp [children, hc])
          rw [evalS] at hev
          cases hlf : lookup σ fn with
          | some w =>
            simp only [hlf] at hev
            cases hae : evalListS args σ with
            | error e => simp [hae] at hev
            | ok p =>
              obtain ⟨avs, σ1⟩ := p
              simp only [hae] at hev
              have e1 := ihl args σ avs σ1 (by simp [psize, psizeList] at hsz ⊢; omega) hargs hae
              cases w with
              | vbuiltin b =>
                cases hap : applyBuiltin b avs with
                | error e => simp [hap] at hev
                | ok u =>
                  simp only [hap] at hev
                  cases hev
                  exact e1
              | _ => simp at hev
          | none =>
            simp only [hlf] at hev
            cases hbf : builtinValue fn with
            | none => simp [hbf] at hev
            | some w =>
              simp only [hbf] at hev
              cases hae : evalListS args σ with
              | error e => simp [hae] at hev
              | ok p =>
                obtain ⟨avs, σ1⟩ := p
                simp only [hae] at hev
                have e1 := ihl args σ avs σ1 (by simp [psize, psizeList] at hsz ⊢; omega) hargs hae
                cases w with
                | vbuiltin b =>
                  cases hap : applyBuiltin b avs with
                  | error e => simp [hap] at hev
                  | ok u =>
                    simp only [hap] at hev
                    cases hev
                    exact e1
                | _ => simp at hev
        | attr aobj ameth =>
          have hfa := hch (.attr aobj ameth) (by simp [children])
          rw [containsAttr] at hfa
          simp [isAttrNode] at hfa
        | _ => simp [evalS] at hev
      | listLit elts =>
        have hel : containsAttrList elts = false := by
          rw [containsAttrList_false_iff]
          intro c hc
          exact hch c (by simp [children, hc])
        rw [evalS] at hev
        cases hae : evalListS elts σ with
        | error e => simp [hae] at hev
        | ok p =>
          obtain ⟨vs, σ1⟩ := p
          simp only [hae] at hev
          cases hev
          exact ihl elts σ vs σ' (by simp [psize] at hsz; omega) hel hae
      | tupleLit elts =>
        have hel : containsAttrList elts = false := by
          rw [containsAttrList_false_iff]
          intro c hc
          exact hch c (by simp [children, hc])
        rw [evalS] at hev
        cases hae : evalListS elts σ with
        | error e => simp [hae] at hev
        | ok p =>
          obtain ⟨vs, σ1⟩ := p
          simp only [hae] at hev
          cases hev
          exact ihl elts σ vs σ' (by simp [psize] at hsz; omega) hel hae
      | subscript obj idx =>
        have ho' : containsAttr obj = false := hch obj (by simp [children])
        have hi' : containsAttr idx = false := hch idx (by simp [children])
        rw [evalS] at hev
        cases hob : evalS obj σ with
        | error e => simp [hob] at hev
        | ok p =>
          obtain ⟨ov, σ1⟩ := p
          simp only [hob] at hev
          cases hix : evalS idx σ1 with
          | error e => simp [hix] at hev
          | ok q =>
            obtain ⟨iv, σ2⟩ := q
            simp only [hix] at hev
            cases hres : (match iv with
                | .vslice lov hiv stv => pySlice ov lov hiv stv
                | _ => pyIndex ov iv) with
            | error e => simp [hres] at hev
            | ok w =>
              simp only [hres] at hev
              cases hev
              have e1 := iht obj σ ov σ1 (by simp [psize] at hsz; omega) ho' hob
              have e2 := iht idx σ1 iv σ' (by simp [psize] at hsz; omega) hi' hix
              exact e2.trans e1
      | sliceNode lo hi st =>
        have hlo : ∀ e, lo = some e → containsAttr e = false := by
          intro e he
          exact hch e (by simp [children, he])
        have hhi : ∀ e, hi = some e → containsAttr e = false := by
          intro e he
          exact hch e (by simp [children, he])
        have hst : ∀ e, st = some e → containsAttr e = false := by
          intro e he
          exact hch e (by simp [children, he])
        rw [evalS] at hev
        cases h1 : evalOptS lo σ with
        | error e => simp [h1] at hev
        | ok p =>
          obtain ⟨lov, σ1⟩ := p
          simp only [h1] at hev
          cases h2 : evalOptS hi σ1 with
          | error e => simp [h2] at hev
          | ok q =>
            obtain ⟨hiv, σ2⟩ := q
            simp only [h2] at hev
            cases h3 : evalOptS st σ2 with
            | error e => simp [h3] at hev
            | ok w =>
              obtain ⟨stv, σ3⟩ := w
              simp only [h3] at hev
              cases hev
              have e1 := iho lo σ lov σ1 (by simp [psize] at hsz; omega) hlo h1
              have e2 := iho hi σ1 hiv σ2 (by simp [psize] at hsz; omega) hhi h2
              have e3 := iho st σ2 stv σ' (by simp [psize] at hsz; omega) hst h3
              exact (e3.trans e2).trans e1
      | attr aobj ameth => rw [evalS] at hev; cases hev
      | expression b => simp [evalS] at hev
      | module body => simp [evalS] at hev
      | exprStmt e => simp [evalS] at hev
      | assign tgt rhs => simp [evalS] at hev
    · intro ts σ vs σ' hsz hal hev
      cases ts with
      | nil => rw [evalListS] at hev; cases hev; rfl
      | cons e es =>
        rw [containsAttrList] at hal
        simp only [Bool.or_eq_false_iff] at hal
        rw [evalListS] at hev
        cases h1 : evalS e σ with
        | error err => simp [h1] at hev
        | ok p =>
          obtain ⟨w, σ1⟩ := p
          simp only [h1] at hev
          cases h2 : evalListS es σ1 with
          | error err => simp [h2] at hev
          | ok q =>
            obtain ⟨ws, σ2⟩ := q
            simp only [h2] at hev
            cases hev
            have e1 := iht e σ w σ1 (by simp [psizeList] at hsz; omega) hal.1 h1
            have e2 := ihl es σ1 ws σ' (by simp [psizeList] at hsz; omega) hal.2 h2
            exact e2.trans e1
    · intro o σ vo σ' hsz hoa hev
      cases o with
      | none => rw [evalOptS] at hev; cases hev; rfl
      | some e =>
        rw [evalOptS] at hev
        cases h1 : evalS e σ with
        | error err => simp [h1] at hev
        | ok p =>
          obtain ⟨w, σ1⟩ := p
          simp only [h1] at hev
          cases hev
          exact iht e σ w σ' (by simp [psizeOpt] at hsz; omega) (hoa e rfl) h1

theorem isAttrNode_checkNode (t : PyAst) (h : isAttrNode t = true) :
    ∃ e, checkNode t = Except.error e := by
  cases t with
  | attr v a =>
    exact ⟨"Недопустимый синтаксический элемент: " ++ "Attribute",
      by simp [checkNode, kindName, ALLOWED_NODES]⟩
  | _ => simp [isAttrNode] at h

/-- A tree containing an attribute node nowhere passes the node-by-node
check: `Attribute` is not an allowed node kind. -/
theorem containsAttr_not_allOk (n : Nat) :
    ∀ t : PyAst, psize t ≤ n → containsAttr t = true → allOk t = false := by
  induction n with
  | zero =>
    intro t ht _
    have := psize_pos t
    omega
  | succ n ih =>
    intro t ht hb
    rw [containsAttr] at hb
    rw [allOk]
    rcases Bool.or_eq_true_iff.mp hb with hbad | hlist
    · obtain ⟨e, he⟩ := isAttrNode_checkNode t hbad
      simp [he]
    · obtain ⟨c, hc, hcb⟩ := (containsAttrList_iff _).mp hlist
      have hsz : psize c ≤ n := by
        have h1 := psize_le_of_mem c _ hc
        have h2 := psizeList_children_lt t
        omega
      have := ih c hsz hcb
      have hfalse : allOkList (children t) = false := by
        cases hall : allOkList (children t) with
        | false => rfl
        | true => exact absurd ((allOkList_iff _).mp hall c hc) (by simp [this])
      simp [hfalse]

/-- A tree accepted by `_validate_ast` has no attribute node. -/
theorem validateAst_no_attr (t : PyAst) (h : validateAst t = Except.ok ()) :
    containsAttr t = false := by
  have hall := validateAst_ok_allOk t h
  cases hca : containsAttr t with
  | false => rfl
  | true =>
    have := containsAttr_not_allOk (psize t) t (le_refl _) hca
    rw [hall] at this
    exact absurd this (by simp)

-- ----------------------------- Claim inputs -----------------------------

/-- The parsed form of the answer `nums[:] = [1,3,5]` (statement mode). -/
def remEvensSliceAnswer : PyAst :=
  .module [.assign
    (.subscript (.name "nums") (.sliceNode Option.none Option.none Option.none))
    (.listLit [.const (.cint 1), .const (.cint 3), .const (.cint 5)])]

/-- The parsed form of the answer `nums[10] = 99` (statement mode): its
execution raises `IndexError`. -/
def remEvensBoomAnswer : PyAst :=
  .module [.assign (.subscript (.name "nums") (.const (.cint 10))) (.const (.cint 99))]

/-- The parsed form of the answer `ba[10] = 65` (statement mode): its
execution raises `IndexError`. -/
def baBoomAnswer : PyAst :=
  .module [.assign (.subscript (.name "ba") (.const (.cint 10))) (.const (.cint 65))]

/-- The parsed form of the answer `ba[0] = 65` (statement mode; `65` is the
code point of `A`, as `ord('A')` computes in the task's hint). -/
def baSetAnswer : PyAst :=
  .module [.assign (.subscript (.name "ba") (.const (.cint 0))) (.const (.cint 65))]

-- ----------------------------- Claim theorems -----------------------------

/-- C4: every expression submitted to expression-mode validation that
contains, anywhere, a call whose callee is not a bare name, or a call whose
bare callee name is outside `ALLOWED_CALLS`, is rejected by
`_validate_ast`: the walk visits every node, so nesting cannot bypass the
rejection. -/
theorem validate_rejects_disallowed_calls (t : PyAst)
    (h : containsBadCall t = true) :
    ∃ m, validateAst t = Except.error m := by
  cases hv : validateAst t with
  | error m => exact ⟨m, rfl⟩
  | ok u =>
    cases u
    have hall := validateAst_ok_allOk t hv
    have hnot := containsBadCall_not_allOk (psize t) t (le_refl _) h
    rw [hall] at hnot
    exact absurd hnot (by simp)

/-- Witness for C4: `ord(a.copy())` contains a disallowed bare-name call
(`ord`) and, nested inside it, a call through an attribute; validation
rejects the whole expression. -/
theorem validate_rejects_disallowed_calls_witness :
    containsBadCall (.call (.name "ord") [.call (.attr (.name "a") "copy") []]) = true ∧
    ∃ m, validateAst (.call (.name "ord") [.call (.attr (.name "a") "copy") []]) =
      Except.error m :=
  ⟨by simp +decide [containsBadCall, containsBadCallList, badCallNode, children],
   validate_rejects_disallowed_calls _
     (by simp +decide [containsBadCall, containsBadCallList, badCallNode, children])⟩

/-- C5: blank input (empty after stripping) is rejected as
`Пустое выражение` before any parsing: the result does not depend on the
parser or the environment. -/
theorem safe_eval_blank_rejected_before_parse
    (parse : String → Except String PyAst) (expr : String) (env : Ctx)
    (h : pyStrip expr = "") :
    safe_eval parse expr env = Except.error "Пустое выражение" := by
  simp [safe_eval, h]

/-- Witness for C5: the whitespace-only answer, under a parser that would
report being reached. -/
theorem safe_eval_blank_rejected_before_parse_witness :
    pyStrip "   " = "" ∧
    safe_eval (fun s => Except.error ("разбор достигнут: " ++ s)) "   "
      [("x", Value.vnone)] = Except.error "Пустое выражение" :=
  ⟨by decide,
   safe_eval_blank_rejected_before_parse _ "   " _ (by decide)⟩

/-- C6 (bug evidence): `ALLOWED_NODES` omits `Expression`, the root node of
every `mode='eval'` parse, so the semantic-equality checker rejects the
correct answer `2 ** 10` (and `2 ** 9` alike) with a validation error
instead of passing/failing on the computed value. -/
theorem eval_equals_checker_rejects_correct_answer :
    check_eval_equals [] (.vint 1024)
        (.binop .pow (.const (.cint 2)) (.const (.cint 10))) =
      (false, "Ошибка разбора/вычисления: Недопустимый синтаксический элемент: Expression") ∧
    check_eval_equals [] (.vint 1024)
        (.binop .pow (.const (.cint 2)) (.const (.cint 9))) =
      (false, "Ошибка разбора/вычисления: Недопустимый синтаксический элемент: Expression") := by
  constructor <;>
    simp +decide [check_eval_equals, safeEvalAst, validateAst, walkValidate,
      checkNode, kindName, ALLOWED_NODES]

/-- C3 (bug evidence): the `list_copy` predicate checker rejects every
answer — the fresh copy `a[:]` and the binding `a` itself both fail with
the `Expression` validation error — and its predicate tests
`v is not None` instead of `v is not a`, so it would accept the unmodified
binding's value were evaluation reachable. -/
theorem list_copy_checker_rejects_all_answers :
    list_copy_checker
        (.subscript (.name "a") (.sliceNode Option.none Option.none Option.none)) =
      (false, "Ошибка: Недопустимый синтаксический элемент: Expression") ∧
    list_copy_checker (.name "a") =
      (false, "Ошибка: Недопустимый синтаксический элемент: Expression") ∧
    listCopyPred (.vlist [.vint 1, .vint 2, .vint 3]) = true := by
  refine ⟨?_, ?_, by simp +decide [listCopyPred, isListV, isNotNoneV, pyEq, pyEqList]⟩ <;>
    simp +decide [list_copy_checker, check_eval_predicate, safeEvalAst, validateAst,
      walkValidate, checkNode, kindName, ALLOWED_NODES]

/-- C7 (bug evidence): the environment-key check exists and names the
offending variable, but it runs after validation, and validation rejects
every expression at the `Expression` root — so an evaluation call with a
bad environment key fails with the node error, not the promised rejection
naming the variable. -/
theorem env_key_check_unreachable :
    checkEnvKeys [("q", Value.vint 1)] =
      Except.error ("Недопустимое имя переменной окружения: " ++ "q") ∧
    safeEvalAst (.name "x") [("q", Value.vint 1)] =
      Except.error "Недопустимый синтаксический элемент: Expression" ∧
    "Недопустимый синтаксический элемент: Expression" ≠
      "Недопустимое имя переменной окружения: " ++ "q" := by
  refine ⟨by simp +decide [checkEnvKeys, ALLOWED_NAMES, ALLOWED_BUILTIN_NAMES], ?_, by decide⟩
  simp +decide [safeEvalAst, validateAst, walkValidate, checkNode, kindName, ALLOWED_NODES]

/-- C8: the multi-result textual checker accepts the exact answer and the
extra-spaces answer (each segment is trimmed before comparison) and rejects
the answer with the segments in the wrong order. -/
theorem textio_checker_matches_trimmed_segments :
    ( check_textio ["False", "True"] "False;True") = (true, "Верно!") ∧
    ( check_textio ["False", "True"] "False ; True") = (true, "Верно!") ∧
    ( check_textio ["False", "True"] "True;False") = (false, "Ожидалось: False; True") := by
  refine ⟨by decide, by decide, by decide⟩

theorem filterMap_strip_no_empty (l : List String) :
    (l.filterMap
      (fun x => let y := pyStrip x; if y = "" then Option.none else some y)).contains
        "" = false := by
  induction l with
  | nil => rfl
  | cons x xs ih =>
    simp only [List.filterMap]
    by_cases h : pyStrip x = ""
    · simpa [h] using ih
    · simpa [h, List.contains_cons, ih] using fun hc => h hc.symm

/-- C10: segments empty after trimming are discarded before comparison:
no computed segment list ever contains the empty string, the answer
`False;;True;` produces the same segment list as `False;True`, and it
passes against the same expected sequence. -/
theorem textio_checker_discards_empty_segments :
    (∀ ans : String, ((pySplitSemi (pyStrip ans)).filterMap
        (fun x => let y := pyStrip x; if y = "" then Option.none else some y)).contains
          "" = false) ∧
    (pySplitSemi (pyStrip "False;;True;")).filterMap
        (fun x => let y := pyStrip x; if y = "" then Option.none else some y) =
      (pySplitSemi (pyStrip "False;True")).filterMap
        (fun x => let y := pyStrip x; if y = "" then Option.none else some y) ∧
    ( check_textio ["False", "True"] "False;;True;") = (true, "Верно!") := by
  exact ⟨fun ans => filterMap_strip_no_empty _, by decide, by decide⟩

/-- C9: a snippet accepted by `_validate_ast` evaluates without touching
the execution context, so evaluating it a second time against the context
the first run left behind yields the identical result: no hidden mutable
state leaks between calls. -/
theorem validated_eval_idempotent (t : PyAst) (σ : Ctx) (v : Value) (σ' : Ctx)
    (hval : validateAst t = Except.ok ())
    (hev : evalS t σ = Except.ok (v, σ')) :
    σ' = σ ∧ evalS t σ' = Except.ok (v, σ') := by
  have hattr := validateAst_no_attr t hval
  have hpres := (evalS_preserve (psize t)).1 t σ v σ' (le_refl _) hattr hev
  subst hpres
  exact ⟨rfl, hev⟩

/-- Witness for C9: `1 + 2` validates, evaluates to `3`, and re-evaluating
against the post-context gives the identical result. -/
theorem validated_eval_idempotent_witness :
    evalS (.binop .add (.const (.cint 1)) (.const (.cint 2))) [("x", Value.vnone)] =
      Except.ok (.vint 3, [("x", Value.vnone)]) := by
  have h1 : validateAst (.binop .add (.const (.cint 1)) (.const (.cint 2))) =
      Except.ok () := by
    simp +decide [validateAst, walkValidate, checkNode, kindName, children,
      ALLOWED_NODES, pure, Except.pure]
  have h2 : evalS (.binop .add (.const (.cint 1)) (.const (.cint 2)))
      [("x", Value.vnone)] = Except.ok (.vint 3, [("x", Value.vnone)]) := by
    simp +decide [evalS, applyBin, asInt]
  exact (validated_eval_idempotent _ _ _ _ h1 h2).2

/-- Counterexample to C1 as stated, for both mutation-effect checkers: the
answers `nums[:] = [1,3,5]` and `ba[0] = 65` are rejected by the only
allow-list policy boundary in the program (`_validate_ast` rejects their
`Assign` node), yet the `list_remove_evens` and `bytearray_modify` checkers
execute them and return passing verdicts — no validation happens before
execution. -/
theorem mutation_checker_executes_unvalidated_answer :
    validateAst remEvensSliceAnswer =
      Except.error "Недопустимый синтаксический элемент: Assign" ∧
    list_remove_evens_checker remEvensSliceAnswer = Except.ok (true, "Верно!") ∧
    validateAst baSetAnswer =
      Except.error "Недопустимый синтаксический элемент: Assign" ∧
    bytearray_modify_checker baSetAnswer = Except.ok (true, "Верно!") := by
  refine ⟨?_, ?_, ?_, ?_⟩
  · simp +decide [remEvensSliceAnswer, validateAst, walkValidate, checkNode,
      kindName, children, ALLOWED_NODES]
  · simp +decide [remEvensSliceAnswer, list_remove_evens_checker, execModule,
      execStmtList, execStmt, evalS, evalListS, lookup, updateCtx, setFullSlice,
      seqElems, pyEq, pyEqList, isListV, List.find?]
  · simp +decide [baSetAnswer, validateAst, walkValidate, checkNode,
      kindName, children, ALLOWED_NODES]
  · simp +decide [baSetAnswer, bytearray_modify_checker, execModule,
      execStmtList, execStmt, evalS, lookup, setIndex, normIdx, asInt,
      updateCtx, pyEq, List.find?]

/-- C1 amended, for every answer handled by either mutation-effect checker:
the checker executes the answer directly (no validation); execution runs
against a fresh copy of the named mutable binding (the literals
`[1,2,3,4,5,6]` and `bytearray(b'abc')` are rebuilt on every invocation),
and the verdict is exactly the value-equality comparison (plus, for
`list_remove_evens`, the list `isinstance` test) of that binding's
post-state against the expected post-state. -/
theorem mutation_checker_fresh_copy_value_verdict :
    (∀ (prog : PyAst) (σ' : Ctx),
      execModule prog
          [("nums", .vlist [.vint 1, .vint 2, .vint 3, .vint 4, .vint 5, .vint 6])] =
        Except.ok σ' →
      list_remove_evens_checker prog = Except.ok
        (isListV ((lookup σ' "nums").getD .vnone) &&
           pyEq ((lookup σ' "nums").getD .vnone) (.vlist [.vint 1, .vint 3, .vint 5]),
         if isListV ((lookup σ' "nums").getD .vnone) &&
             pyEq ((lookup σ' "nums").getD .vnone) (.vlist [.vint 1, .vint 3, .vint 5]) then
           "Верно!"
         else "Неверно. Ожидалось, что nums станет [1,3,5]")) ∧
    (∀ (prog : PyAst) (σ' : Ctx),
      execModule prog [("ba", .vbytearray [97, 98, 99])] = Except.ok σ' →
      bytearray_modify_checker prog = Except.ok
        (pyEq ((lookup σ' "ba").getD .vnone) (.vbytearray [65, 98, 99]),
         if pyEq ((lookup σ' "ba").getD .vnone) (.vbytearray [65, 98, 99]) then
           "Верно!"
         else "Неверно. Ожидалось bytearray(b'Abc')")) := by
  constructor
  · intro prog σ' h
    rw [list_remove_evens_checker, h]
  · intro prog σ' h
    rw [bytearray_modify_checker, h]

/-- Witness for the amended C1, one concrete answer per checker: the
in-place slice assignment leaves `nums` equal to `[1,3,5]` by value, and
the in-place byte assignment leaves `ba` equal to `bytearray(b'Abc')`, so
both checkers pass. -/
theorem mutation_checker_fresh_copy_value_verdict_witness :
    list_remove_evens_checker remEvensSliceAnswer = Except.ok (true, "Верно!") ∧
    bytearray_modify_checker baSetAnswer = Except.ok (true, "Верно!") := by
  have h1 : execModule remEvensSliceAnswer
      [("nums", .vlist [.vint 1, .vint 2, .vint 3, .vint 4, .vint 5, .vint 6])] =
      Except.ok [("nums", .vlist [.vint 1, .vint 3, .vint 5])] := by
    simp +decide [remEvensSliceAnswer, execModule, execStmtList, execStmt, evalS,
      evalListS, lookup, updateCtx, setFullSlice, seqElems, List.find?]
  have h2 : execModule baSetAnswer [("ba", .vbytearray [97, 98, 99])] =
      Except.ok [("ba", .vbytearray [65, 98, 99])] := by
    simp +decide [baSetAnswer, execModule, execStmtList, execStmt, evalS, lookup,
      setIndex, normIdx, asInt, updateCtx, List.find?]
  have w1 := mutation_checker_fresh_copy_value_verdict.1 remEvensSliceAnswer _ h1
  have w2 := mutation_checker_fresh_copy_value_verdict.2 baSetAnswer _ h2
  constructor
  · simpa +decide [lookup, List.find?, isListV, pyEq, pyEqList] using w1
  · simpa +decide [lookup, List.find?, pyEq] using w2

/-- Counterexample to C2 as stated: the `list_remove_evens` strategy has no
try/except around `exec`; the answer `nums[10] = 99` raises `IndexError`
inside it and the exception escapes the checker to its caller. -/
theorem mutation_checker_failure_escapes :
    list_remove_evens_checker remEvensBoomAnswer =
      Except.error "list assignment index out of range" := by
  simp +decide [remEvensBoomAnswer, list_remove_evens_checker, execModule,
    execStmtList, execStmt, evalS, lookup, setIndex, normIdx, asInt, List.find?]

/-- C2 amended: the eval-based strategies fold every `safe_eval` failure
into a failing verdict with a diagnostic, while the mutation-effect
checkers let exceptions escape; those escaped exceptions are caught one
level up, by the `try/except` of `run_tasks`, and folded into a failing
verdict there. -/
theorem checker_failures_folded_or_caught_by_session :
    (∀ env expected ans e, safeEvalAst ans env = Except.error e →
        check_eval_equals env expected ans =
          (false, "Ошибка разбора/вычисления: " ++ e)) ∧
    (∀ env p s ans e, safeEvalAst ans env = Except.error e →
        check_eval_predicate env p s ans = (false, "Ошибка: " ++ e)) ∧
    (∀ ans e, list_remove_evens_checker ans = Except.error e →
        sessionCheck list_remove_evens_checker ans =
          (false, "Ошибка проверки: " ++ e)) ∧
    (∀ ans e, bytearray_modify_checker ans = Except.error e →
        sessionCheck bytearray_modify_checker ans =
          (false, "Ошибка проверки: " ++ e)) := by
  refine ⟨?_, ?_, ?_, ?_⟩
  · intro env expected ans e h
    simp [check_eval_equals, h]
  · intro env p s ans e h
    simp [check_eval_predicate, h]
  · intro ans e h
    simp [sessionCheck, h]
  · intro ans e h
    simp [sessionCheck, h]

/-- Witness for the amended C2, one concrete instance per conjunct. -/
theorem checker_failures_folded_or_caught_by_session_witness :
    check_eval_equals [] (.vint 0) (.name "zz") =
      (false, "Ошибка разбора/вычисления: " ++
        "Недопустимый синтаксический элемент: Expression") ∧
    check_eval_predicate [] isListV "копия" (.name "zz") =
      (false, "Ошибка: " ++ "Недопустимый синтаксический элемент: Expression") ∧
    sessionCheck list_remove_evens_checker remEvensBoomAnswer =
      (false, "Ошибка проверки: " ++ "list assignment index out of range") ∧
    sessionCheck bytearray_modify_checker baBoomAnswer =
      (false, "Ошибка проверки: " ++ "bytearray index out of range") := by
  have hthm := checker_failures_folded_or_caught_by_session
  have hz : safeEvalAst (.name "zz") [] =
      Except.error "Недопустимый синтаксический элемент: Expression" := by
    simp +decide [safeEvalAst, validateAst, walkValidate, checkNode, kindName,
      ALLOWED_NODES]
  have hrem : list_remove_evens_checker remEvensBoomAnswer =
      Except.error "list assignment index out of range" := by
    simp +decide [remEvensBoomAnswer, list_remove_evens_checker, execModule,
      execStmtList, execStmt, evalS, lookup, setIndex, normIdx, asInt, List.find?]
  have hba : bytearray_modify_checker baBoomAnswer =
      Except.error "bytearray index out of range" := by
    simp +decide [baBoomAnswer, bytearray_modify_checker, execModule,
      execStmtList, execStmt, evalS, lookup, setIndex, normIdx, asInt, List.find?]
  exact ⟨hthm.1 [] (.vint 0) (.name "zz") _ hz,
         hthm.2.1 [] isListV "копия" (.name "zz") _ hz,
         hthm.2.2.1 remEvensBoomAnswer _ hrem,
         hthm.2.2.2 baBoomAnswer _ hba⟩
